import Mathlib

/-!
Verification of the Trilium custom request handler
(src/res/trilium_handler.js) against its specification.

The handler is a remote-method-invocation dispatcher: it authenticates a
shared token, resolves a target handle from an object kind and id, looks up
and possibly calls the named member, and serializes the result to JSON with
a replacer that drops keys named children and parents.

The embedding below models JavaScript values reaching the handler as an
inductive type JVal (JSON values plus undefined), the host application
(Trilium's script API) as a structure of collaborator functions, and the
handler script itself as the function handleRequest.  String fields of the
request body (token, objtype, objid) are modelled as Option String, with
none standing for an absent field / undefined, matching the spec's data
model which types them as strings; strict equality on such values is then
equality of options, and the loose string comparisons of the dispatch
chain coincide with equality.
-/

/-- A JavaScript value as seen by the handler: the JSON values plus
undefined (for absent members and absent results). -/
inductive JVal where
  | undef
  | null
  | bool (b : Bool)
  | num (n : Int)
  | str (s : String)
  | arr (elems : List JVal)
  | obj (fields : List (String × JVal))

/-- The decimal digit character for n < 10. -/
def digitChar : Nat → Char
  | 0 => '0'
  | 1 => '1'
  | 2 => '2'
  | 3 => '3'
  | 4 => '4'
  | 5 => '5'
  | 6 => '6'
  | 7 => '7'
  | 8 => '8'
  | 9 => '9'
  | _ + 10 => '?'

/-- Decimal digits of a natural number, most significant first
(the text JSON.stringify produces for a non-negative integer). -/
def natToDigits (n : Nat) : List Char :=
  if _ : n < 10 then [digitChar n]
  else natToDigits (n / 10) ++ [digitChar (n % 10)]
decreasing_by exact Nat.div_lt_self (by omega) (by omega)

/-- The property key JSON.stringify passes to the replacer for array
index i (the decimal string of the index). -/
def natKey (i : Nat) : String := String.mk (natToDigits i)

/-- Decimal text of an integer, as JSON.stringify prints it. -/
def intChars (n : Int) : List Char :=
  if n < 0 then '-' :: natToDigits n.natAbs else natToDigits n.toNat

/-- The hexadecimal digit character for n < 16 (lower case, as
JSON.stringify emits in escapes). -/
def hexDigitChar : Nat → Char
  | 10 => 'a'
  | 11 => 'b'
  | 12 => 'c'
  | 13 => 'd'
  | 14 => 'e'
  | 15 => 'f'
  | n => digitChar n

/-- JSON escape of one character, as JSON.stringify quotes string
contents: quote, backslash and the named control characters get two-char
escapes, other control characters get a unicode escape, anything else is
kept as is. -/
def escCharL (c : Char) : List Char :=
  if c = '"' then ['\\', '"']
  else if c = '\\' then ['\\', '\\']
  else if c = '\n' then ['\\', 'n']
  else if c = '\r' then ['\\', 'r']
  else if c = '\t' then ['\\', 't']
  else if c = '\x08' then ['\\', 'b']
  else if c = '\x0c' then ['\\', 'f']
  else if c.toNat < 32 then
    ['\\', 'u', '0', '0', hexDigitChar (c.toNat / 16), hexDigitChar (c.toNat % 16)]
  else [c]

/-- JSON escape of a character list. -/
def escChars : List Char → List Char
  | [] => []
  | c :: cs => escCharL c ++ escChars cs

/-- A JSON string literal: the escaped contents between double quotes. -/
def quoteChars (s : String) : List Char :=
  '"' :: (escChars s.data ++ ['"'])

/-- Joins already-serialized chunks with commas and appends the closing
bracket, exactly as JSON.stringify lays out array elements and object
members. -/
def joinTail (close : Char) : List (List Char) → List Char
  | [] => [close]
  | x :: xs =>
    x ++ (match xs with
          | [] => [close]
          | _ :: _ => ',' :: joinTail close xs)

mutual
/-- JSON.stringify of a value under a replacer abstracted as a key filter
(filt k = true means the replacer returns undefined for key k).  Returns
none when stringify would return undefined (the value is undefined). -/
def serVal (filt : String → Bool) : JVal → Option (List Char)
  | .undef => none
  | .null => some ['n', 'u', 'l', 'l']
  | .bool b => if b then some ['t', 'r', 'u', 'e'] else some ['f', 'a', 'l', 's', 'e']
  | .num n => some (intChars n)
  | .str s => some (quoteChars s)
  | .arr xs => some ('[' :: joinTail ']' (serElemsList filt 0 xs))
  | .obj fs => some ('\x7b' :: joinTail '\x7d' (serFieldsList filt fs))

/-- Serialized chunks of array elements from index i on: the replacer is
called with the decimal index as key, and an element it suppresses (or an
undefined element) prints as null. -/
def serElemsList (filt : String → Bool) (i : Nat) : List JVal → List (List Char)
  | [] => []
  | v :: vs =>
    (if filt (natKey i) then none else serVal filt v).getD ['n', 'u', 'l', 'l'] ::
      serElemsList filt (i + 1) vs

/-- Serialized chunks of the kept object members: a member whose key the
replacer suppresses, or whose value serializes to undefined, is omitted. -/
def serFieldsList (filt : String → Bool) : List (String × JVal) → List (List Char)
  | [] => []
  | (k, v) :: fs =>
    match (if filt k then none else serVal filt v) with
    | none => serFieldsList filt fs
    | some cs => (quoteChars k ++ ':' :: cs) :: serFieldsList filt fs
end

/-- One step of JSON.stringify on a keyed property: the replacer first,
then the value serialization. -/
def serProp (filt : String → Bool) (key : String) (v : JVal) : Option (List Char) :=
  if filt key then none else serVal filt v

/-- The replacer of the handler: drops every key named exactly children
or parents. -/
def cpFilt (k : String) : Bool := k == "children" || k == "parents"

/-- The trivial replacer (JSON.stringify without a replacer argument). -/
def noFilt (_ : String) : Bool := false

/-- JSON.stringify(v, replacer) of the handler: top-level key is the empty
string; none when stringify returns undefined. -/
def stringifyCP (v : JVal) : Option String :=
  (serProp cpFilt "" v).map String.mk

/-- JSON.stringify(v) with no replacer. -/
def stringifyPlain (v : JVal) : Option String :=
  (serVal noFilt v).map String.mk

mutual
/-- Spec-side description of the serializer's filtering: removes every
mapping key named exactly children or parents at every nesting depth and
keeps every other key and its value unchanged. -/
def stripCP : JVal → JVal
  | .undef => .undef
  | .null => .null
  | .bool b => .bool b
  | .num n => .num n
  | .str s => .str s
  | .arr xs => .arr (stripCPL xs)
  | .obj fs => .obj (stripCPF fs)

/-- stripCP on array elements. -/
def stripCPL : List JVal → List JVal
  | [] => []
  | v :: vs => stripCP v :: stripCPL vs

/-- stripCP on object members: children/parents members are removed,
other members keep their key and have their value stripped recursively. -/
def stripCPF : List (String × JVal) → List (String × JVal)
  | [] => []
  | (k, v) :: fs =>
    if cpFilt k then stripCPF fs else (k, stripCP v) :: stripCPF fs
end

mutual
/-- A value JSON.stringify encodes without loss: no undefined anywhere. -/
def jsonSafe : JVal → Bool
  | .undef => false
  | .null => true
  | .bool _ => true
  | .num _ => true
  | .str _ => true
  | .arr xs => jsonSafeL xs
  | .obj fs => jsonSafeF fs

/-- jsonSafe on array elements. -/
def jsonSafeL : List JVal → Bool
  | [] => true
  | v :: vs => jsonSafe v && jsonSafeL vs

/-- jsonSafe on object member values. -/
def jsonSafeF : List (String × JVal) → Bool
  | [] => true
  | (_, v) :: fs => jsonSafe v && jsonSafeF fs
end

mutual
/-- No mapping key named children or parents anywhere in the value. -/
def noCP : JVal → Bool
  | .undef => true
  | .null => true
  | .bool _ => true
  | .num _ => true
  | .str _ => true
  | .arr xs => noCPL xs
  | .obj fs => noCPF fs

/-- noCP on array elements. -/
def noCPL : List JVal → Bool
  | [] => true
  | v :: vs => noCP v && noCPL vs

/-- noCP on object members. -/
def noCPF : List (String × JVal) → Bool
  | [] => true
  | (k, v) :: fs => !cpFilt k && noCP v && noCPF fs
end

mutual
/-- Parser fuel sufficient for a value: one unit per parser-level
recursion step (max-based, so it is a depth measure, not a size). -/
def jsize : JVal → Nat
  | .arr xs => 1 + esize xs
  | .obj fs => 1 + fsize fs
  | _ => 1

/-- Fuel sufficient for the element list of an array. -/
def esize : List JVal → Nat
  | [] => 1
  | v :: vs => 1 + max (jsize v) (esize vs)

/-- Fuel sufficient for the member list of an object. -/
def fsize : List (String × JVal) → Nat
  | [] => 1
  | (_, v) :: fs => 1 + max (jsize v) (fsize fs)
end

/-- Numeric value of a decimal digit character. -/
def digitVal (c : Char) : Nat := c.toNat - 48

/-- Splits a character list into its longest digit prefix and the rest. -/
def spanDigits : List Char → List Char × List Char
  | [] => ([], [])
  | c :: cs =>
    if c.isDigit then
      let p := spanDigits cs
      (c :: p.1, p.2)
    else ([], c :: cs)

/-- Value of a digit list, most significant first, on top of an
accumulator. -/
def digitsVal : Nat → List Char → Nat
  | acc, [] => acc
  | acc, c :: cs => digitsVal (10 * acc + digitVal c) cs

/-- Parses a decimal natural number (longest digit prefix). -/
def parseNatC (cs : List Char) : Option (Nat × List Char) :=
  match spanDigits cs with
  | ([], _) => none
  | (ds, rest) => some (digitsVal 0 ds, rest)

/-- Numeric value of a hexadecimal digit character. -/
def hexVal (c : Char) : Option Nat :=
  if c.isDigit then some (digitVal c)
  else if 'a' ≤ c ∧ c ≤ 'f' then some (c.toNat - 87)
  else if 'A' ≤ c ∧ c ≤ 'F' then some (c.toNat - 55)
  else none

/-- The character a two-character JSON escape denotes. -/
def unescapeChar (e : Char) : Option Char :=
  if e = '"' then some '"'
  else if e = '\\' then some '\\'
  else if e = '/' then some '/'
  else if e = 'n' then some '\n'
  else if e = 'r' then some '\r'
  else if e = 't' then some '\t'
  else if e = 'b' then some '\x08'
  else if e = 'f' then some '\x0c'
  else none

mutual
/-- Parses the body of a JSON string literal after the opening quote,
up to and including the closing quote. -/
def parseStrBody : List Char → Option (List Char × List Char)
  | [] => none
  | c :: cs =>
    if c = '"' then some ([], cs)
    else if c = '\\' then parseEsc cs
    else (parseStrBody cs).map fun p => (c :: p.1, p.2)
termination_by cs => cs.length

/-- Parses what follows a backslash inside a JSON string literal. -/
def parseEsc : List Char → Option (List Char × List Char)
  | [] => none
  | e :: cs2 =>
    if e = 'u' then
      match cs2 with
      | h1 :: h2 :: h3 :: h4 :: cs3 => do
        let a ← hexVal h1
        let b ← hexVal h2
        let c3 ← hexVal h3
        let d ← hexVal h4
        let p ← parseStrBody cs3
        some (Char.ofNat (((a * 16 + b) * 16 + c3) * 16 + d) :: p.1, p.2)
      | _ => none
    else do
      let ec ← unescapeChar e
      let p ← parseStrBody cs2
      some (ec :: p.1, p.2)
termination_by cs => cs.length
decreasing_by all_goals simp_arith [List.length_cons]
end

mutual
/-- Fueled JSON parser for one value, leaving the unconsumed suffix. -/
def parseVal : Nat → List Char → Option (JVal × List Char)
  | 0, _ => none
  | f + 1, cs =>
    match cs with
    | [] => none
    | c :: r =>
      if c = 'n' then
        match r with
        | 'u' :: 'l' :: 'l' :: r2 => some (.null, r2)
        | _ => none
      else if c = 't' then
        match r with
        | 'r' :: 'u' :: 'e' :: r2 => some (.bool true, r2)
        | _ => none
      else if c = 'f' then
        match r with
        | 'a' :: 'l' :: 's' :: 'e' :: r2 => some (.bool false, r2)
        | _ => none
      else if c = '"' then
        (parseStrBody r).map fun p => (.str (String.mk p.1), p.2)
      else if c = '[' then
        (parseElems f r).map fun p => (.arr p.1, p.2)
      else if c = '\x7b' then
        (parseFields f r).map fun p => (.obj p.1, p.2)
      else if c = '-' then
        (parseNatC r).map fun p => (.num (-(p.1 : Int)), p.2)
      else if c.isDigit then
        (parseNatC (c :: r)).map fun p => (.num (p.1 : Int), p.2)
      else none

/-- Parses array elements after the opening bracket, up to and including
the closing bracket. -/
def parseElems : Nat → List Char → Option (List JVal × List Char)
  | 0, _ => none
  | f + 1, cs =>
    match cs with
    | [] => none
    | c :: r =>
      if c = ']' then some ([], r)
      else
        (parseVal f (c :: r)).bind fun p =>
          match p.2 with
          | ',' :: r2 => (parseElems f r2).map fun q => (p.1 :: q.1, q.2)
          | ']' :: r2 => some ([p.1], r2)
          | _ => none

/-- Parses object members after the opening brace, up to and including
the closing brace. -/
def parseFields : Nat → List Char → Option (List (String × JVal) × List Char)
  | 0, _ => none
  | f + 1, cs =>
    match cs with
    | [] => none
    | c :: r =>
      if c = '\x7d' then some ([], r)
      else if c = '"' then
        (parseStrBody r).bind fun kp =>
          match kp.2 with
          | ':' :: r2 =>
            (parseVal f r2).bind fun vp =>
              match vp.2 with
              | ',' :: r3 =>
                (parseFields f r3).map fun q => ((String.mk kp.1, vp.1) :: q.1, q.2)
              | '\x7d' :: r3 => some ([(String.mk kp.1, vp.1)], r3)
              | _ => none
          | _ => none
      else none
end

/-- Modelled from the spec: the remote client is not under src/, so its
decoding of a response body ("decoding its body as JSON") is modelled as
a standard JSON parse of the whole string, per the spec's round-trip
property. -/
def jsonDecode (s : String) : Option JVal :=
  match parseVal (s.data.length + 1) s.data with
  | some (v, []) => some v
  | _ => none

/-- A reference into the host's object graph: either null (as returned by
an unsuccessful host lookup such as getNote on an unknown id) or an object
identified opaquely. -/
inductive HRef where
  | null
  | obj (id : Nat)
deriving DecidableEq

/-- The value of a member slot of a host object: either a plain
(non-callable) value, or a function.  A function receives the receiver's
object id (Reflect.apply's thisArgument) and the argument list, and either
returns a value or throws, the thrown value carried as its string form. -/
inductive Member where
  | val (v : JVal)
  | fn (f : Nat → List JVal → Except String JVal)

/-- The host collaborators the handler script uses: the stored label value
read through api.currentNote.getLabel("pythonClientToken").value, the
resolver functions, the sql facade, the api root object, and the member
table of every host object.  An absent member is the slot Member.val
JVal.undef (reading it yields undefined). -/
structure Host where
  labelValue : Option String
  getNote : Option String → HRef
  getBranch : Option String → HRef
  getAttribute : Option String → HRef
  sql : HRef
  root : Nat
  member : Nat → String → Member

/-- The destructured request body.  Token, kind and id are string fields
(Option String, none for an absent field); methodName is the member name;
args the positional argument list. -/
structure Request where
  pythonClientToken : Option String
  objtype : Option String
  objid : Option String
  methodName : String
  args : List JVal

/-- What the handler script produces: an HTTP response (status and the
body text passed to send, none when send carries no JSON text), or an
exception that escaped the script uncaught. -/
inductive Outcome where
  | response (status : Nat) (body : Option String)
  | uncaught (e : String)
deriving DecidableEq

/-- The target-object dispatch of the handler: obj starts as api and the
if/else-if chain on objtype reassigns it. -/
def resolveObj (h : Host) (objtype objid : Option String) : HRef :=
  if objtype = some "note" then h.getNote objid
  else if objtype = some "branch" then h.getBranch objid
  else if objtype = some "attribute" then h.getAttribute objid
  else if objtype = some "sql" then h.sql
  else .obj h.root

/-- String form of the TypeError raised by reading a member of null. -/
def typeErrMsg (m : String) : String :=
  "TypeError: Cannot read properties of null (reading '" ++ m ++ "')"

/-- The guarded invocation step: if the member is a function it is applied
to the receiver with the args as given (Reflect.apply(obj[m], obj, args)),
otherwise ret keeps the member's value. -/
def invokeMember (receiver : Nat) (m : Member) (args : List JVal) : Except String JVal :=
  match m with
  | .fn f => f receiver args
  | .val v => .ok v

/-- The JS null test ret !== null: strict, so undefined is not null. -/
def JVal.isNull : JVal → Bool
  | .null => true
  | _ => false

/-- The Executing log line: string concatenation prints an absent field
as undefined, and the args array is stringified without a replacer. -/
def execLog (r : Request) : String :=
  "Executing " ++ r.objtype.getD "undefined" ++ "(" ++ r.objid.getD "undefined" ++ ")."
    ++ r.methodName ++ "(" ++ ((stringifyPlain (.arr r.args)).getD "undefined") ++ ")"

/-- The Return value log line: concatenation with an undefined stringify
result prints undefined. -/
def returnLog (ret : JVal) : String :=
  "Return value " ++ ((stringifyCP ret).getD "undefined")

/-- The body of the 201 response: JSON.stringify(ret, replacer), which is
absent when stringify returns undefined. -/
def successBody (ret : JVal) : Option String := stringifyCP ret

/-- The handler script of src/res/trilium_handler.js, end to end: token
check, Executing log, target resolution, the unguarded member read (var
ret = obj[methodName] stands before the try block, so on a null target it
throws out of the script), the guarded call, the Return value log, and
the response choice on ret !== null.  The second component collects the
api.log messages in order. -/
def handleRequest (h : Host) (r : Request) : Outcome × List String :=
  if r.pythonClientToken ≠ h.labelValue then
    (.response 401 none, [])
  else
    let logs := [execLog r]
    match resolveObj h r.objtype r.objid with
    | .null => (.uncaught (typeErrMsg r.methodName), logs)
    | .obj n =>
      match invokeMember n (h.member n r.methodName) r.args with
      | .error e => (.response 500 (some e), logs ++ [e])
      | .ok ret =>
        let logs := logs ++ [returnLog ret]
        if ret.isNull then (.response 400 none, logs)
        else (.response 201 (successBody ret), logs)

/-- The rest of the input does not begin with a decimal digit (so a
number token just before it ends where it should). -/
def NoDigHead : List Char → Prop
  | [] => True
  | c :: _ => c.isDigit = false

theorem digitChar_isDigit (n : Nat) (h : n < 10) : (digitChar n).isDigit = true := by
  interval_cases n <;> decide

theorem digitVal_digitChar (n : Nat) (h : n < 10) : digitVal (digitChar n) = n := by
  interval_cases n <;> decide

theorem natToDigits_ne_nil (n : Nat) : natToDigits n ≠ [] := by
  rw [natToDigits]
  split
  · simp
  · simp [natToDigits_ne_nil (n / 10)]

theorem natToDigits_all_digits (n : Nat) : ∀ c ∈ natToDigits n, c.isDigit = true := by
  induction n using Nat.strong_induction_on with
  | _ n ih =>
    rw [natToDigits]
    split
    · next h => simpa using digitChar_isDigit n h
    · next h =>
      intro c hc
      rcases List.mem_append.mp hc with h1 | h2
      · exact ih (n / 10) (Nat.div_lt_self (by omega) (by omega)) c h1
      · simp only [List.mem_singleton] at h2
        subst h2
        exact digitChar_isDigit _ (Nat.mod_lt _ (by omega))

theorem natToDigits_cons (n : Nat) :
    ∃ d ds, natToDigits n = d :: ds ∧ d.isDigit = true := by
  obtain ⟨d, ds, h⟩ := List.exists_cons_of_ne_nil (natToDigits_ne_nil n)
  exact ⟨d, ds, h, natToDigits_all_digits n d (h ▸ List.mem_cons_self d ds)⟩

theorem digitsVal_nil (acc : Nat) : digitsVal acc [] = acc := rfl

theorem digitsVal_cons (acc : Nat) (c : Char) (cs : List Char) :
    digitsVal acc (c :: cs) = digitsVal (10 * acc + digitVal c) cs := rfl

theorem digitsVal_append_single (acc : Nat) (l : List Char) (c : Char) :
    digitsVal acc (l ++ [c]) = 10 * digitsVal acc l + digitVal c := by
  induction l generalizing acc with
  | nil => rfl
  | cons d ds ih => rw [List.cons_append, digitsVal_cons, digitsVal_cons, ih]

theorem digitsVal_natToDigits (n : Nat) :
    ∀ acc, digitsVal acc (natToDigits n) = acc * 10 ^ (natToDigits n).length + n := by
  induction n using Nat.strong_induction_on with
  | _ n ih =>
    intro acc
    rw [natToDigits]
    split
    · next h =>
      rw [digitsVal_cons, digitsVal_nil, digitVal_digitChar n h]
      simp only [List.length_singleton, pow_one]
      omega
    · next h =>
      rw [digitsVal_append_single, ih (n / 10) (Nat.div_lt_self (by omega) (by omega)),
        digitVal_digitChar _ (Nat.mod_lt _ (by omega)), List.length_append]
      have hn : 10 * (n / 10) + n % 10 = n := Nat.div_add_mod n 10
      have hexp : (10 : Nat) ^ ((natToDigits (n / 10)).length + [digitChar (n % 10)].length)
          = 10 ^ (natToDigits (n / 10)).length * 10 := by
        simp [Nat.pow_succ]
      rw [hexp]
      set P := (10 : Nat) ^ (natToDigits (n / 10)).length with hP
      have : 10 * (acc * P + n / 10) + n % 10 = acc * (P * 10) + (10 * (n / 10) + n % 10) := by
        ring
      rw [this, hn]

theorem spanDigits_exact (ds rest : List Char) (hds : ∀ c ∈ ds, c.isDigit = true)
    (hrest : NoDigHead rest) : spanDigits (ds ++ rest) = (ds, rest) := by
  induction ds with
  | nil =>
    simp only [List.nil_append]
    match rest with
    | [] => rfl
    | c :: cs =>
      have hc : c.isDigit = false := hrest
      simp [spanDigits, hc]
  | cons d ds ih =>
    have hd : d.isDigit = true := hds d (List.mem_cons_self d ds)
    simp [spanDigits, hd, ih (fun c hc => hds c (List.mem_cons_of_mem d hc))]

theorem parseNatC_natToDigits (n : Nat) (rest : List Char) (hrest : NoDigHead rest) :
    parseNatC (natToDigits n ++ rest) = some (n, rest) := by
  rw [parseNatC, spanDigits_exact _ _ (natToDigits_all_digits n) hrest]
  obtain ⟨d, ds, hcons, _⟩ := natToDigits_cons n
  rw [hcons]
  simp only []
  rw [← hcons, digitsVal_natToDigits n 0]
  simp

theorem hexVal_hexDigitChar (n : Nat) (h : n < 16) : hexVal (hexDigitChar n) = some n := by
  interval_cases n <;> decide

theorem psb_nil : parseStrBody [] = none := by
  rw [parseStrBody.eq_def]

theorem psb_close (t : List Char) : parseStrBody ('"' :: t) = some ([], t) := by
  rw [parseStrBody.eq_def]
  rfl

theorem psb_backslash (t : List Char) : parseStrBody ('\\' :: t) = parseEsc t := by
  rw [parseStrBody.eq_def]
  rfl

theorem psb_other (c : Char) (t : List Char) (h1 : ¬c = '"') (h2 : ¬c = '\\') :
    parseStrBody (c :: t) = (parseStrBody t).map fun p => (c :: p.1, p.2) := by
  rw [parseStrBody.eq_def]
  simp only [if_neg h1, if_neg h2]

theorem pesc_named (e c' : Char) (t : List Char) (hu : ¬e = 'u')
    (h : unescapeChar e = some c') :
    parseEsc (e :: t) = (parseStrBody t).map fun p => (c' :: p.1, p.2) := by
  rw [parseEsc.eq_def]
  simp only [if_neg hu, h]
  cases parseStrBody t <;> rfl

theorem pesc_u00 (x y : Char) (a b : Nat) (hx : hexVal x = some a) (hy : hexVal y = some b)
    (t : List Char) :
    parseEsc ('u' :: '0' :: '0' :: x :: y :: t) =
      (parseStrBody t).map fun p => (Char.ofNat (a * 16 + b) :: p.1, p.2) := by
  have h0 : hexVal '0' = some 0 := by decide
  rw [parseEsc.eq_def]
  simp only [if_pos rfl, h0, hx, hy]
  cases parseStrBody t <;> simp

theorem psb_escCharL (c : Char) (t : List Char) :
    parseStrBody (escCharL c ++ t) = (parseStrBody t).map fun p => (c :: p.1, p.2) := by
  by_cases h1 : c = '"'
  · subst h1
    rw [show escCharL '"' = ['\\', '"'] from rfl]
    rw [List.cons_append, List.cons_append, List.nil_append, psb_backslash]
    exact pesc_named _ _ _ (by decide) (by decide)
  by_cases h2 : c = '\\'
  · subst h2
    rw [show escCharL '\\' = ['\\', '\\'] from rfl]
    rw [List.cons_append, List.cons_append, List.nil_append, psb_backslash]
    exact pesc_named _ _ _ (by decide) (by decide)
  by_cases h3 : c = '\n'
  · subst h3
    rw [show escCharL '\n' = ['\\', 'n'] from rfl]
    rw [List.cons_append, List.cons_append, List.nil_append, psb_backslash]
    exact pesc_named _ _ _ (by decide) (by decide)
  by_cases h4 : c = '\r'
  · subst h4
    rw [show escCharL '\r' = ['\\', 'r'] from rfl]
    rw [List.cons_append, List.cons_append, List.nil_append, psb_backslash]
    exact pesc_named _ _ _ (by decide) (by decide)
  by_cases h5 : c = '\t'
  · subst h5
    rw [show escCharL '\t' = ['\\', 't'] from rfl]
    rw [List.cons_append, List.cons_append, List.nil_append, psb_backslash]
    exact pesc_named _ _ _ (by decide) (by decide)
  by_cases h6 : c = '\x08'
  · subst h6
    rw [show escCharL '\x08' = ['\\', 'b'] from rfl]
    rw [List.cons_append, List.cons_append, List.nil_append, psb_backslash]
    exact pesc_named _ _ _ (by decide) (by decide)
  by_cases h7 : c = '\x0c'
  · subst h7
    rw [show escCharL '\x0c' = ['\\', 'f'] from rfl]
    rw [List.cons_append, List.cons_append, List.nil_append, psb_backslash]
    exact pesc_named _ _ _ (by decide) (by decide)
  by_cases h8 : c.toNat < 32
  · rw [show escCharL c = ['\\', 'u', '0', '0', hexDigitChar (c.toNat / 16),
        hexDigitChar (c.toNat % 16)] from by
      rw [escCharL]
      simp only [if_neg h1, if_neg h2, if_neg h3, if_neg h4, if_neg h5, if_neg h6, if_neg h7,
        if_pos h8]]
    rw [List.cons_append, List.cons_append, List.cons_append, List.cons_append,
      List.cons_append, List.cons_append, List.nil_append, psb_backslash]
    rw [pesc_u00 _ _ (c.toNat / 16) (c.toNat % 16)
      (hexVal_hexDigitChar _ (by omega)) (hexVal_hexDigitChar _ (Nat.mod_lt _ (by omega))) t]
    have hv : c.toNat / 16 * 16 + c.toNat % 16 = c.toNat := by omega
    rw [hv, Char.ofNat_toNat]
  · rw [show escCharL c = [c] from by
      rw [escCharL]
      simp only [if_neg h1, if_neg h2, if_neg h3, if_neg h4, if_neg h5, if_neg h6, if_neg h7,
        if_neg h8]]
    rw [List.cons_append, List.nil_append]
    exact psb_other c _ h1 h2

theorem psb_escChars (cs : List Char) (t : List Char) :
    parseStrBody (escChars cs ++ '"' :: t) = some (cs, t) := by
  induction cs with
  | nil =>
    rw [show escChars [] = [] from rfl, List.nil_append]
    exact psb_close t
  | cons c cs ih =>
    rw [show escChars (c :: cs) = escCharL c ++ escChars cs from rfl, List.append_assoc,
      psb_escCharL, ih]
    rfl

theorem pv_zero (cs : List Char) : parseVal 0 cs = none := by
  rw [parseVal.eq_def]

theorem pv_nil (f : Nat) : parseVal (f + 1) [] = none := by
  rw [parseVal.eq_def]

theorem pv_null (f : Nat) (r : List Char) :
    parseVal (f + 1) ('n' :: 'u' :: 'l' :: 'l' :: r) = some (.null, r) := by
  rw [parseVal.eq_def]
  rfl

theorem pv_true (f : Nat) (r : List Char) :
    parseVal (f + 1) ('t' :: 'r' :: 'u' :: 'e' :: r) = some (.bool true, r) := by
  rw [parseVal.eq_def]
  rfl

theorem pv_false (f : Nat) (r : List Char) :
    parseVal (f + 1) ('f' :: 'a' :: 'l' :: 's' :: 'e' :: r) = some (.bool false, r) := by
  rw [parseVal.eq_def]
  rfl

theorem pv_str (f : Nat) (r : List Char) :
    parseVal (f + 1) ('"' :: r) =
      (parseStrBody r).map fun p => (.str (String.mk p.1), p.2) := by
  rw [parseVal.eq_def]
  rfl

theorem pv_arr (f : Nat) (r : List Char) :
    parseVal (f + 1) ('[' :: r) = (parseElems f r).map fun p => (.arr p.1, p.2) := by
  rw [parseVal.eq_def]
  rfl

theorem pv_obj (f : Nat) (r : List Char) :
    parseVal (f + 1) ('\x7b' :: r) = (parseFields f r).map fun p => (.obj p.1, p.2) := by
  rw [parseVal.eq_def]
  rfl

theorem pv_neg (f : Nat) (r : List Char) :
    parseVal (f + 1) ('-' :: r) = (parseNatC r).map fun p => (.num (-(p.1 : Int)), p.2) := by
  rw [parseVal.eq_def]
  rfl

theorem isDigit_ne (c d : Char) (hc : c.isDigit = true) (hd : d.isDigit = false) : ¬c = d := by
  intro h
  subst h
  rw [hc] at hd
  cases hd

theorem pv_digit (f : Nat) (c : Char) (r : List Char) (hd : c.isDigit = true) :
    parseVal (f + 1) (c :: r) =
      (parseNatC (c :: r)).map fun p => (.num (p.1 : Int), p.2) := by
  rw [parseVal.eq_def]
  simp only [if_neg (isDigit_ne c 'n' hd (by decide)), if_neg (isDigit_ne c 't' hd (by decide)),
    if_neg (isDigit_ne c 'f' hd (by decide)), if_neg (isDigit_ne c '"' hd (by decide)),
    if_neg (isDigit_ne c '[' hd (by decide)), if_neg (isDigit_ne c '\x7b' hd (by decide)),
    if_neg (isDigit_ne c '-' hd (by decide)), if_pos hd]

theorem pe_zero (cs : List Char) : parseElems 0 cs = none := by
  rw [parseElems.eq_def]

theorem pe_close (f : Nat) (r : List Char) : parseElems (f + 1) (']' :: r) = some ([], r) := by
  rw [parseElems.eq_def]
  rfl

theorem pe_step (f : Nat) (c : Char) (r : List Char) (h : ¬c = ']') :
    parseElems (f + 1) (c :: r) =
      (parseVal f (c :: r)).bind fun p =>
        match p.2 with
        | ',' :: r2 => (parseElems f r2).map fun q => (p.1 :: q.1, q.2)
        | ']' :: r2 => some ([p.1], r2)
        | _ => none := by
  rw [parseElems.eq_def]
  simp only [if_neg h]

theorem pf_zero (cs : List Char) : parseFields 0 cs = none := by
  rw [parseFields.eq_def]

theorem pf_close (f : Nat) (r : List Char) :
    parseFields (f + 1) ('\x7d' :: r) = some ([], r) := by
  rw [parseFields.eq_def]
  rfl

theorem pf_quote (f : Nat) (r : List Char) :
    parseFields (f + 1) ('"' :: r) =
      (parseStrBody r).bind fun kp =>
        match kp.2 with
        | ':' :: r2 =>
          (parseVal f r2).bind fun vp =>
            match vp.2 with
            | ',' :: r3 =>
              (parseFields f r3).map fun q => ((String.mk kp.1, vp.1) :: q.1, q.2)
            | '\x7d' :: r3 => some ([(String.mk kp.1, vp.1)], r3)
            | _ => none
        | _ => none := by
  rw [parseFields.eq_def]
  rfl

theorem jsize_pos (v : JVal) : 0 < jsize v := by
  cases v <;> simp [jsize]

theorem esize_pos (xs : List JVal) : 0 < esize xs := by
  cases xs <;> simp [esize]

theorem fsize_pos (fs : List (String × JVal)) : 0 < fsize fs := by
  cases fs with
  | nil => simp [fsize]
  | cons kv fs => cases kv; simp [fsize]

theorem serVal_undef (filt : String → Bool) : serVal filt .undef = none := by
  rw [serVal.eq_def]

theorem serVal_null (filt : String → Bool) : serVal filt .null = some ['n', 'u', 'l', 'l'] := by
  rw [serVal.eq_def]

theorem serVal_bool (filt : String → Bool) (b : Bool) :
    serVal filt (.bool b) =
      if b then some ['t', 'r', 'u', 'e'] else some ['f', 'a', 'l', 's', 'e'] := by
  rw [serVal.eq_def]

theorem serVal_num (filt : String → Bool) (n : Int) :
    serVal filt (.num n) = some (intChars n) := by
  rw [serVal.eq_def]

theorem serVal_str (filt : String → Bool) (s : String) :
    serVal filt (.str s) = some (quoteChars s) := by
  rw [serVal.eq_def]

theorem serVal_arr (filt : String → Bool) (xs : List JVal) :
    serVal filt (.arr xs) = some ('[' :: joinTail ']' (serElemsList filt 0 xs)) := by
  rw [serVal.eq_def]

theorem serVal_obj (filt : String → Bool) (fs : List (String × JVal)) :
    serVal filt (.obj fs) = some ('\x7b' :: joinTail '\x7d' (serFieldsList filt fs)) := by
  rw [serVal.eq_def]

theorem serElemsList_nil (filt : String → Bool) (i : Nat) : serElemsList filt i [] = [] := by
  rw [serElemsList.eq_def]

theorem serElemsList_cons (filt : String → Bool) (i : Nat) (v : JVal) (vs : List JVal) :
    serElemsList filt i (v :: vs) =
      (if filt (natKey i) then none else serVal filt v).getD ['n', 'u', 'l', 'l'] ::
        serElemsList filt (i + 1) vs := by
  rw [serElemsList.eq_def]

theorem serFieldsList_nil (filt : String → Bool) : serFieldsList filt [] = [] := by
  rw [serFieldsList.eq_def]

theorem serFieldsList_cons (filt : String → Bool) (k : String) (v : JVal)
    (fs : List (String × JVal)) :
    serFieldsList filt ((k, v) :: fs) =
      match (if filt k then none else serVal filt v) with
      | none => serFieldsList filt fs
      | some cs => (quoteChars k ++ ':' :: cs) :: serFieldsList filt fs := by
  rw [serFieldsList.eq_def]

theorem serVal_isSome (filt : String → Bool) (v : JVal) (h : jsonSafe v = true) :
    ∃ cv, serVal filt v = some cv := by
  cases v with
  | undef => simp [jsonSafe] at h
  | null => exact ⟨_, serVal_null filt⟩
  | bool b => cases b <;> exact ⟨_, by rw [serVal_bool]; rfl⟩
  | num n => exact ⟨_, serVal_num filt n⟩
  | str s => exact ⟨_, serVal_str filt s⟩
  | arr xs => exact ⟨_, serVal_arr filt xs⟩
  | obj fs => exact ⟨_, serVal_obj filt fs⟩

theorem serVal_head (filt : String → Bool) (v : JVal) (cs : List Char)
    (h : serVal filt v = some cs) :
    ∃ c cs', cs = c :: cs' ∧ ¬c = ']' ∧ ¬c = '\x7d' ∧ ¬c = ',' := by
  cases v with
  | undef => rw [serVal_undef] at h; cases h
  | null =>
    rw [serVal_null] at h
    exact ⟨_, _, (Option.some.inj h).symm, by decide, by decide, by decide⟩
  | bool b =>
    rw [serVal_bool] at h
    cases b with
    | true =>
      rw [if_pos rfl] at h
      exact ⟨_, _, (Option.some.inj h).symm, by decide, by decide, by decide⟩
    | false =>
      rw [if_neg (by decide)] at h
      exact ⟨_, _, (Option.some.inj h).symm, by decide, by decide, by decide⟩
  | num n =>
    rw [serVal_num] at h
    obtain rfl := (Option.some.inj h).symm
    rw [intChars]
    split
    · exact ⟨_, _, rfl, by decide, by decide, by decide⟩
    · obtain ⟨d, ds, hcons, hdig⟩ := natToDigits_cons n.toNat
      exact ⟨d, ds, hcons, isDigit_ne d ']' hdig (by decide),
        isDigit_ne d '\x7d' hdig (by decide), isDigit_ne d ',' hdig (by decide)⟩
  | str s =>
    rw [serVal_str] at h
    exact ⟨_, _, (Option.some.inj h).symm, by decide, by decide, by decide⟩
  | arr xs =>
    rw [serVal_arr] at h
    exact ⟨_, _, (Option.some.inj h).symm, by decide, by decide, by decide⟩
  | obj fs =>
    rw [serVal_obj] at h
    exact ⟨_, _, (Option.some.inj h).symm, by decide, by decide, by decide⟩

theorem joinTail_nil (close : Char) : joinTail close [] = [close] := rfl

theorem joinTail_single (close : Char) (x : List Char) :
    joinTail close [x] = x ++ [close] := rfl

theorem joinTail_cons2 (close : Char) (x y : List Char) (ys : List (List Char)) :
    joinTail close (x :: y :: ys) = x ++ ',' :: joinTail close (y :: ys) := rfl

theorem noDigHead_nil : NoDigHead [] := trivial

theorem noDigHead_cons (c : Char) (r : List Char) (h : c.isDigit = false) :
    NoDigHead (c :: r) := h

theorem parse_ser_aux (f : Nat) :
    (∀ v cs, jsonSafe v = true → jsize v ≤ f → serVal noFilt v = some cs →
      ∀ rest, NoDigHead rest → parseVal f (cs ++ rest) = some (v, rest)) ∧
    (∀ i xs, jsonSafeL xs = true → esize xs ≤ f →
      ∀ rest, parseElems f (joinTail ']' (serElemsList noFilt i xs) ++ rest) = some (xs, rest)) ∧
    (∀ fs, jsonSafeF fs = true → fsize fs ≤ f →
      ∀ rest, parseFields f (joinTail '\x7d' (serFieldsList noFilt fs) ++ rest) = some (fs, rest)) := by
  induction f with
  | zero =>
    refine ⟨?_, ?_, ?_⟩
    · intro v cs _ hsz _ rest _
      exact absurd hsz (by have := jsize_pos v; omega)
    · intro i xs _ hsz rest
      exact absurd hsz (by have := esize_pos xs; omega)
    · intro fs _ hsz rest
      exact absurd hsz (by have := fsize_pos fs; omega)
  | succ f ih =>
    obtain ⟨ihP, ihQ, ihR⟩ := ih
    refine ⟨?_, ?_, ?_⟩
    · intro v cs hsafe hsz hser rest hrest
      cases v with
      | undef => simp [jsonSafe] at hsafe
      | null =>
        rw [serVal_null] at hser
        obtain rfl : cs = ['n', 'u', 'l', 'l'] := (Option.some.inj hser).symm
        simp only [List.cons_append, List.nil_append]
        exact pv_null f rest
      | bool b =>
        rw [serVal_bool] at hser
        cases b with
        | true =>
          rw [if_pos rfl] at hser
          obtain rfl : cs = ['t', 'r', 'u', 'e'] := (Option.some.inj hser).symm
          simp only [List.cons_append, List.nil_append]
          exact pv_true f rest
        | false =>
          rw [if_neg (by decide)] at hser
          obtain rfl : cs = ['f', 'a', 'l', 's', 'e'] := (Option.some.inj hser).symm
          simp only [List.cons_append, List.nil_append]
          exact pv_false f rest
      | num n =>
        rw [serVal_num] at hser
        obtain rfl : cs = intChars n := (Option.some.inj hser).symm
        rw [intChars]
        split
        · next hneg =>
          rw [List.cons_append, pv_neg, parseNatC_natToDigits _ _ hrest]
          have hn : (-(n.natAbs : Int)) = n := by omega
          show some (JVal.num (-(n.natAbs : Int)), rest) = some (JVal.num n, rest)
          rw [hn]
        · next hpos =>
          obtain ⟨d, ds, hcons, hdig⟩ := natToDigits_cons n.toNat
          rw [hcons, List.cons_append, pv_digit f d _ hdig, ← List.cons_append, ← hcons,
            parseNatC_natToDigits _ _ hrest]
          have hn : ((n.toNat : Int)) = n := Int.toNat_of_nonneg (by omega)
          show some (JVal.num ((n.toNat : Int)), rest) = some (JVal.num n, rest)
          rw [hn]
      | str s =>
        rw [serVal_str] at hser
        obtain rfl : cs = quoteChars s := (Option.some.inj hser).symm
        rw [quoteChars, List.cons_append, pv_str, List.append_assoc, List.singleton_append,
          psb_escChars]
        rfl
      | arr xs =>
        rw [serVal_arr] at hser
        obtain rfl : cs = '[' :: joinTail ']' (serElemsList noFilt 0 xs) :=
          (Option.some.inj hser).symm
        rw [List.cons_append, pv_arr,
          ihQ 0 xs (by simpa [jsonSafe] using hsafe) (by simp [jsize] at hsz; omega) rest]
        rfl
      | obj fs =>
        rw [serVal_obj] at hser
        obtain rfl : cs = '\x7b' :: joinTail '\x7d' (serFieldsList noFilt fs) :=
          (Option.some.inj hser).symm
        rw [List.cons_append, pv_obj,
          ihR fs (by simpa [jsonSafe] using hsafe) (by simp [jsize] at hsz; omega) rest]
        rfl
    · intro i xs hsafe hsz rest
      cases xs with
      | nil =>
        rw [serElemsList_nil, joinTail_nil, List.singleton_append]
        exact pe_close f rest
      | cons v vs =>
        simp only [jsonSafeL, Bool.and_eq_true] at hsafe
        obtain ⟨hsv, hsvs⟩ := hsafe
        obtain ⟨cv, hcv⟩ := serVal_isSome noFilt v hsv
        have hjv : jsize v ≤ f := by simp [esize] at hsz; omega
        have hevs : esize vs ≤ f := by simp [esize] at hsz; omega
        rw [serElemsList_cons]
        simp only [noFilt, Bool.false_eq_true, if_false, hcv, Option.getD_some]
        obtain ⟨c, cs', rfl, hc1, hc2, hc3⟩ := serVal_head noFilt v cv hcv
        cases vs with
        | nil =>
          rw [serElemsList_nil, joinTail_single]
          simp only [List.cons_append, List.append_assoc, List.singleton_append, List.nil_append]
          rw [pe_step f c _ hc1]
          have hv1 := ihP v _ hsv hjv hcv (']' :: rest) (noDigHead_cons _ _ (by decide))
          simp only [List.cons_append] at hv1
          rw [hv1]
          rfl
        | cons w vs' =>
          rw [serElemsList_cons noFilt (i + 1), joinTail_cons2,
            ← serElemsList_cons noFilt (i + 1)]
          simp only [List.cons_append, List.append_assoc, List.nil_append]
          rw [pe_step f c _ hc1]
          have hv1 := ihP v _ hsv hjv hcv
            (',' :: (joinTail ']' (serElemsList noFilt (i + 1) (w :: vs')) ++ rest))
            (noDigHead_cons _ _ (by decide))
          simp only [List.cons_append] at hv1
          rw [hv1]
          show (parseElems f (joinTail ']' (serElemsList noFilt (i + 1) (w :: vs')) ++ rest)).map
              (fun q => (v :: q.1, q.2)) = some (v :: w :: vs', rest)
          rw [ihQ (i + 1) (w :: vs') hsvs hevs rest]
          rfl
    · intro fs hsafe hsz rest
      cases fs with
      | nil =>
        rw [serFieldsList_nil, joinTail_nil, List.singleton_append]
        exact pf_close f rest
      | cons kv fs' =>
        obtain ⟨k, v⟩ := kv
        simp only [jsonSafeF, Bool.and_eq_true] at hsafe
        obtain ⟨hsv, hsfs⟩ := hsafe
        obtain ⟨cv, hcv⟩ := serVal_isSome noFilt v hsv
        have hjv : jsize v ≤ f := by simp [fsize] at hsz; omega
        have hffs : fsize fs' ≤ f := by simp [fsize] at hsz; omega
        rw [serFieldsList_cons]
        simp only [noFilt, Bool.false_eq_true, if_false, hcv]
        cases fs' with
        | nil =>
          rw [serFieldsList_nil, joinTail_single, quoteChars]
          simp only [List.cons_append, List.append_assoc, List.singleton_append, List.nil_append]
          rw [pf_quote, psb_escChars]
          show (parseVal f (cv ++ '\x7d' :: rest)).bind _ = some ([(k, v)], rest)
          rw [ihP v _ hsv hjv hcv ('\x7d' :: rest) (noDigHead_cons _ _ (by decide))]
          rfl
        | cons kv2 fs'' =>
          obtain ⟨k2, v2⟩ := kv2
          have hsv2 : jsonSafe v2 = true := by
            simp only [jsonSafeF, Bool.and_eq_true] at hsfs
            exact hsfs.1
          obtain ⟨cv2, hcv2⟩ := serVal_isSome noFilt v2 hsv2
          have htail : serFieldsList noFilt ((k2, v2) :: fs'') =
              (quoteChars k2 ++ ':' :: cv2) :: serFieldsList noFilt fs'' := by
            rw [serFieldsList_cons]
            simp only [noFilt, Bool.false_eq_true, if_false, hcv2]
          rw [htail, joinTail_cons2, ← htail, quoteChars]
          simp only [List.cons_append, List.append_assoc, List.singleton_append, List.nil_append]
          rw [pf_quote, psb_escChars]
          show (parseVal f
              (cv ++ ',' :: (joinTail '\x7d' (serFieldsList noFilt ((k2, v2) :: fs'')) ++ rest))).bind
              _ = some ((k, v) :: (k2, v2) :: fs'', rest)
          rw [ihP v _ hsv hjv hcv _ (noDigHead_cons _ _ (by decide))]
          show (parseFields f
              (joinTail '\x7d' (serFieldsList noFilt ((k2, v2) :: fs'')) ++ rest)).map _ =
              some ((k, v) :: (k2, v2) :: fs'', rest)
          rw [ihR ((k2, v2) :: fs'') hsfs hffs rest]
          rfl

theorem jsize_le_aux (N : Nat) :
    (∀ v : JVal, sizeOf v ≤ N → jsonSafe v = true →
      ∀ cs, serVal noFilt v = some cs → jsize v ≤ cs.length) ∧
    (∀ xs : List JVal, sizeOf xs ≤ N → jsonSafeL xs = true →
      ∀ i, esize xs ≤ (joinTail ']' (serElemsList noFilt i xs)).length) ∧
    (∀ fs : List (String × JVal), sizeOf fs ≤ N → jsonSafeF fs = true →
      fsize fs ≤ (joinTail '\x7d' (serFieldsList noFilt fs)).length) := by
  induction N with
  | zero =>
    refine ⟨?_, ?_, ?_⟩
    · intro v hsz
      exact absurd hsz (by cases v <;> simp)
    · intro xs hsz
      exact absurd hsz (by cases xs <;> simp)
    · intro fs hsz
      exact absurd hsz (by cases fs <;> simp)
  | succ N ih =>
    obtain ⟨ihP, ihQ, ihR⟩ := ih
    refine ⟨?_, ?_, ?_⟩
    · intro v hszv hsafe cs hser
      cases v with
      | undef => simp [jsonSafe] at hsafe
      | null =>
        obtain rfl : cs = ['n', 'u', 'l', 'l'] := (Option.some.inj ((serVal_null _).symm.trans hser)).symm
        simp [jsize]
      | bool b =>
        obtain ⟨c, cs', rfl, _, _, _⟩ := serVal_head _ _ _ hser
        simp [jsize]
      | num n =>
        obtain ⟨c, cs', rfl, _, _, _⟩ := serVal_head _ _ _ hser
        simp [jsize]
      | str s =>
        obtain ⟨c, cs', rfl, _, _, _⟩ := serVal_head _ _ _ hser
        simp [jsize]
      | arr xs =>
        obtain rfl : cs = '[' :: joinTail ']' (serElemsList noFilt 0 xs) :=
          (Option.some.inj ((serVal_arr _ _).symm.trans hser)).symm
        have hx : sizeOf xs ≤ N := by
          have : sizeOf (JVal.arr xs) = 1 + sizeOf xs := by simp
          omega
        have := ihQ xs hx (by simpa [jsonSafe] using hsafe) 0
        simp only [jsize, List.length_cons]
        omega
      | obj fs =>
        obtain rfl : cs = '\x7b' :: joinTail '\x7d' (serFieldsList noFilt fs) :=
          (Option.some.inj ((serVal_obj _ _).symm.trans hser)).symm
        have hx : sizeOf fs ≤ N := by
          have : sizeOf (JVal.obj fs) = 1 + sizeOf fs := by simp
          omega
        have := ihR fs hx (by simpa [jsonSafe] using hsafe)
        simp only [jsize, List.length_cons]
        omega
    · intro xs hszx hsafe i
      cases xs with
      | nil => simp [esize, serElemsList_nil, joinTail_nil]
      | cons v vs =>
        simp only [jsonSafeL, Bool.and_eq_true] at hsafe
        obtain ⟨hsv, hsvs⟩ := hsafe
        obtain ⟨cv, hcv⟩ := serVal_isSome noFilt v hsv
        have hsize_v : sizeOf v ≤ N := by
          have : sizeOf (v :: vs) = 1 + sizeOf v + sizeOf vs := by simp
          have := List.sizeOf_lt_of_mem (List.mem_cons_self v vs)
          omega
        have hjv : jsize v ≤ cv.length := ihP v hsize_v hsv cv hcv
        have hcvlen : 1 ≤ cv.length := by
          obtain ⟨c, cs', rfl, _, _, _⟩ := serVal_head _ _ _ hcv
          simp
        rw [serElemsList_cons]
        simp only [noFilt, Bool.false_eq_true, if_false, hcv, Option.getD_some]
        cases vs with
        | nil =>
          rw [serElemsList_nil, joinTail_single]
          have h1 : esize [v] = 1 + max (jsize v) 1 := by simp [esize]
          have hm : max (jsize v) 1 ≤ cv.length := Nat.max_le.mpr ⟨hjv, hcvlen⟩
          simp only [List.length_append, List.length_singleton]
          omega
        | cons w vs' =>
          rw [serElemsList_cons noFilt (i + 1), joinTail_cons2,
            ← serElemsList_cons noFilt (i + 1)]
          have hsize_t : sizeOf (w :: vs') ≤ N := by
            have : sizeOf (v :: w :: vs') = 1 + sizeOf v + sizeOf (w :: vs') := by simp
            omega
          have ht := ihQ (w :: vs') hsize_t hsvs (i + 1)
          have h1 : esize (v :: w :: vs') = 1 + max (jsize v) (esize (w :: vs')) := by
            simp [esize]
          have hm : max (jsize v) (esize (w :: vs')) ≤
              cv.length + (joinTail ']' (serElemsList noFilt (i + 1) (w :: vs'))).length :=
            Nat.max_le.mpr ⟨by omega, by omega⟩
          simp only [List.length_append, List.length_cons]
          omega
    · intro fs hszf hsafe
      cases fs with
      | nil => simp [fsize, serFieldsList_nil, joinTail_nil]
      | cons kv fs' =>
        obtain ⟨k, v⟩ := kv
        simp only [jsonSafeF, Bool.and_eq_true] at hsafe
        obtain ⟨hsv, hsfs⟩ := hsafe
        obtain ⟨cv, hcv⟩ := serVal_isSome noFilt v hsv
        have hsize_v : sizeOf v ≤ N := by
          have h1 : sizeOf ((k, v) :: fs') = 1 + sizeOf (k, v) + sizeOf fs' := by simp
          have h2 : sizeOf (k, v) = 1 + sizeOf k + sizeOf v := by simp
          have h3 : 0 < sizeOf k := by cases k; simp
          omega
        have hjv : jsize v ≤ cv.length := ihP v hsize_v hsv cv hcv
        rw [serFieldsList_cons]
        simp only [noFilt, Bool.false_eq_true, if_false, hcv]
        cases fs' with
        | nil =>
          rw [serFieldsList_nil, joinTail_single]
          have h1 : fsize [(k, v)] = 1 + max (jsize v) 1 := by simp [fsize]
          have hq : 1 ≤ (quoteChars k).length := by simp [quoteChars]
          have hm : max (jsize v) 1 ≤ (quoteChars k).length + 1 + cv.length :=
            Nat.max_le.mpr ⟨by omega, by omega⟩
          simp only [List.length_append, List.length_singleton, List.length_cons]
          omega
        | cons kv2 fs'' =>
          obtain ⟨k2, v2⟩ := kv2
          have hsv2 : jsonSafe v2 = true := by
            simp only [jsonSafeF, Bool.and_eq_true] at hsfs
            exact hsfs.1
          obtain ⟨cv2, hcv2⟩ := serVal_isSome noFilt v2 hsv2
          have htail : serFieldsList noFilt ((k2, v2) :: fs'') =
              (quoteChars k2 ++ ':' :: cv2) :: serFieldsList noFilt fs'' := by
            rw [serFieldsList_cons]
            simp only [noFilt, Bool.false_eq_true, if_false, hcv2]
          rw [htail, joinTail_cons2, ← htail]
          have hsize_t : sizeOf ((k2, v2) :: fs'') ≤ N := by
            have : sizeOf ((k, v) :: (k2, v2) :: fs'') =
                1 + sizeOf (k, v) + sizeOf ((k2, v2) :: fs'') := by simp
            omega
          have ht := ihR ((k2, v2) :: fs'') hsize_t hsfs
          have h1 : fsize ((k, v) :: (k2, v2) :: fs'') =
              1 + max (jsize v) (fsize ((k2, v2) :: fs'')) := by simp [fsize]
          have hm : max (jsize v) (fsize ((k2, v2) :: fs'')) ≤
              ((quoteChars k).length + 1 + cv.length) +
                (joinTail '\x7d' (serFieldsList noFilt ((k2, v2) :: fs''))).length :=
            Nat.max_le.mpr ⟨by omega, by omega⟩
          simp only [List.length_append, List.length_cons]
          omega

theorem jsonDecode_ser (v : JVal) (hsafe : jsonSafe v = true) (cs : List Char)
    (hser : serVal noFilt v = some cs) : jsonDecode (String.mk cs) = some v := by
  have hle : jsize v ≤ cs.length := (jsize_le_aux (sizeOf v)).1 v le_rfl hsafe cs hser
  have h := (parse_ser_aux (cs.length + 1)).1 v cs hsafe (by omega) hser [] noDigHead_nil
  rw [List.append_nil] at h
  show (match parseVal (cs.length + 1) cs with
        | some (v, []) => some v
        | _ => none) = some v
  rw [h]

theorem cpFilt_natKey (i : Nat) : cpFilt (natKey i) = false := by
  obtain ⟨d, ds, hcons, hdig⟩ := natToDigits_cons i
  have h1 : natKey i ≠ "children" := by
    intro h
    have hdata : natToDigits i = "children".data := congrArg String.data h
    rw [hcons] at hdata
    have hd : d = 'c' := by
      have := congrArg List.head? hdata
      simpa using this
    rw [hd] at hdig
    cases hdig
  have h2 : natKey i ≠ "parents" := by
    intro h
    have hdata : natToDigits i = "parents".data := congrArg String.data h
    rw [hcons] at hdata
    have hd : d = 'p' := by
      have := congrArg List.head? hdata
      simpa using this
    rw [hd] at hdig
    cases hdig
  rw [cpFilt]
  simp [h1, h2]

theorem stripCP_undef : stripCP .undef = .undef := by rw [stripCP.eq_def]

theorem stripCP_null : stripCP .null = .null := by rw [stripCP.eq_def]

theorem stripCP_bool (b : Bool) : stripCP (.bool b) = .bool b := by rw [stripCP.eq_def]

theorem stripCP_num (n : Int) : stripCP (.num n) = .num n := by rw [stripCP.eq_def]

theorem stripCP_str (s : String) : stripCP (.str s) = .str s := by rw [stripCP.eq_def]

theorem stripCP_arr (xs : List JVal) : stripCP (.arr xs) = .arr (stripCPL xs) := by
  rw [stripCP.eq_def]

theorem stripCP_obj (fs : List (String × JVal)) : stripCP (.obj fs) = .obj (stripCPF fs) := by
  rw [stripCP.eq_def]

theorem stripCPL_nil : stripCPL [] = [] := by rw [stripCPL.eq_def]

theorem stripCPL_cons (v : JVal) (vs : List JVal) :
    stripCPL (v :: vs) = stripCP v :: stripCPL vs := by rw [stripCPL.eq_def]

theorem stripCPF_nil : stripCPF [] = [] := by rw [stripCPF.eq_def]

theorem stripCPF_cons (k : String) (v : JVal) (fs : List (String × JVal)) :
    stripCPF ((k, v) :: fs) =
      if cpFilt k then stripCPF fs else (k, stripCP v) :: stripCPF fs := by
  rw [stripCPF.eq_def]

theorem strip_ser_aux (N : Nat) :
    (∀ v : JVal, sizeOf v ≤ N → serVal cpFilt v = serVal noFilt (stripCP v)) ∧
    (∀ xs : List JVal, sizeOf xs ≤ N →
      ∀ i, serElemsList cpFilt i xs = serElemsList noFilt i (stripCPL xs)) ∧
    (∀ fs : List (String × JVal), sizeOf fs ≤ N →
      serFieldsList cpFilt fs = serFieldsList noFilt (stripCPF fs)) := by
  induction N with
  | zero =>
    refine ⟨?_, ?_, ?_⟩
    · intro v hsz
      exact absurd hsz (by cases v <;> simp)
    · intro xs hsz
      exact absurd hsz (by cases xs <;> simp)
    · intro fs hsz
      exact absurd hsz (by cases fs <;> simp)
  | succ N ih =>
    obtain ⟨ihP, ihQ, ihR⟩ := ih
    refine ⟨?_, ?_, ?_⟩
    · intro v hszv
      cases v with
      | undef => rw [stripCP_undef, serVal_undef, serVal_undef]
      | null => rw [stripCP_null, serVal_null, serVal_null]
      | bool b => rw [stripCP_bool, serVal_bool, serVal_bool]
      | num n => rw [stripCP_num, serVal_num, serVal_num]
      | str s => rw [stripCP_str, serVal_str, serVal_str]
      | arr xs =>
        rw [stripCP_arr, serVal_arr, serVal_arr]
        have hx : sizeOf xs ≤ N := by
          have : sizeOf (JVal.arr xs) = 1 + sizeOf xs := by simp
          omega
        rw [ihQ xs hx 0]
      | obj fs =>
        rw [stripCP_obj, serVal_obj, serVal_obj]
        have hx : sizeOf fs ≤ N := by
          have : sizeOf (JVal.obj fs) = 1 + sizeOf fs := by simp
          omega
        rw [ihR fs hx]
    · intro xs hszx i
      cases xs with
      | nil => rw [stripCPL_nil, serElemsList_nil, serElemsList_nil]
      | cons v vs =>
        have hsize_v : sizeOf v ≤ N := by
          have : sizeOf (v :: vs) = 1 + sizeOf v + sizeOf vs := by simp
          omega
        have hsize_t : sizeOf vs ≤ N := by
          have : sizeOf (v :: vs) = 1 + sizeOf v + sizeOf vs := by simp
          omega
        rw [stripCPL_cons, serElemsList_cons, serElemsList_cons,
          cpFilt_natKey]
        simp only [noFilt, Bool.false_eq_true, if_false]
        rw [ihP v hsize_v, ihQ vs hsize_t (i + 1)]
    · intro fs hszf
      cases fs with
      | nil => rw [stripCPF_nil, serFieldsList_nil, serFieldsList_nil]
      | cons kv fs' =>
        obtain ⟨k, v⟩ := kv
        have hsize_v : sizeOf v ≤ N := by
          have h1 : sizeOf ((k, v) :: fs') = 1 + sizeOf (k, v) + sizeOf fs' := by simp
          have h2 : sizeOf (k, v) = 1 + sizeOf k + sizeOf v := by simp
          have h3 : 0 < sizeOf k := by cases k; simp
          omega
        have hsize_t : sizeOf fs' ≤ N := by
          have : sizeOf ((k, v) :: fs') = 1 + sizeOf (k, v) + sizeOf fs' := by simp
          have h2 : sizeOf (k, v) = 1 + sizeOf k + sizeOf v := by simp
          omega
        rw [serFieldsList_cons, stripCPF_cons]
        by_cases hk : cpFilt k = true
        · rw [if_pos hk, if_pos hk, ihR fs' hsize_t]
        · rw [if_neg hk, if_neg hk, serFieldsList_cons]
          simp only [noFilt, Bool.false_eq_true, if_false]
          rw [ihP v hsize_v, ihR fs' hsize_t]

theorem serVal_cp_strip (v : JVal) : serVal cpFilt v = serVal noFilt (stripCP v) :=
  (strip_ser_aux (sizeOf v)).1 v le_rfl

/-- The handler's stringify-with-replacer equals plain JSON.stringify of
the value with all children/parents members removed at every depth. -/
theorem stringifyCP_strip (v : JVal) : stringifyCP v = stringifyPlain (stripCP v) := by
  rw [stringifyCP, stringifyPlain, serProp, if_neg (by decide : ¬cpFilt "" = true),
    serVal_cp_strip]

theorem stripCP_of_noCP_aux (N : Nat) :
    (∀ v : JVal, sizeOf v ≤ N → noCP v = true → stripCP v = v) ∧
    (∀ xs : List JVal, sizeOf xs ≤ N → noCPL xs = true → stripCPL xs = xs) ∧
    (∀ fs : List (String × JVal), sizeOf fs ≤ N → noCPF fs = true → stripCPF fs = fs) := by
  induction N with
  | zero =>
    refine ⟨?_, ?_, ?_⟩
    · intro v hsz
      exact absurd hsz (by cases v <;> simp)
    · intro xs hsz
      exact absurd hsz (by cases xs <;> simp)
    · intro fs hsz
      exact absurd hsz (by cases fs <;> simp)
  | succ N ih =>
    obtain ⟨ihP, ihQ, ihR⟩ := ih
    refine ⟨?_, ?_, ?_⟩
    · intro v hszv hcp
      cases v with
      | undef => rw [stripCP_undef]
      | null => rw [stripCP_null]
      | bool b => rw [stripCP_bool]
      | num n => rw [stripCP_num]
      | str s => rw [stripCP_str]
      | arr xs =>
        have hx : sizeOf xs ≤ N := by
          have : sizeOf (JVal.arr xs) = 1 + sizeOf xs := by simp
          omega
        rw [stripCP_arr, ihQ xs hx (by simpa [noCP] using hcp)]
      | obj fs =>
        have hx : sizeOf fs ≤ N := by
          have : sizeOf (JVal.obj fs) = 1 + sizeOf fs := by simp
          omega
        rw [stripCP_obj, ihR fs hx (by simpa [noCP] using hcp)]
    · intro xs hszx hcp
      cases xs with
      | nil => rw [stripCPL_nil]
      | cons v vs =>
        simp only [noCPL, Bool.and_eq_true] at hcp
        have hsize_v : sizeOf v ≤ N := by
          have : sizeOf (v :: vs) = 1 + sizeOf v + sizeOf vs := by simp
          omega
        have hsize_t : sizeOf vs ≤ N := by
          have : sizeOf (v :: vs) = 1 + sizeOf v + sizeOf vs := by simp
          omega
        rw [stripCPL_cons, ihP v hsize_v hcp.1, ihQ vs hsize_t hcp.2]
    · intro fs hszf hcp
      cases fs with
      | nil => rw [stripCPF_nil]
      | cons kv fs' =>
        obtain ⟨k, v⟩ := kv
        simp only [noCPF, Bool.and_eq_true] at hcp
        obtain ⟨⟨hk, hv⟩, hfs⟩ := hcp
        have hsize_v : sizeOf v ≤ N := by
          have h1 : sizeOf ((k, v) :: fs') = 1 + sizeOf (k, v) + sizeOf fs' := by simp
          have h2 : sizeOf (k, v) = 1 + sizeOf k + sizeOf v := by simp
          have h3 : 0 < sizeOf k := by cases k; simp
          omega
        have hsize_t : sizeOf fs' ≤ N := by
          have : sizeOf ((k, v) :: fs') = 1 + sizeOf (k, v) + sizeOf fs' := by simp
          have h2 : sizeOf (k, v) = 1 + sizeOf k + sizeOf v := by simp
          omega
        have hkf : cpFilt k = false := by
          cases hcpk : cpFilt k
          · rfl
          · rw [hcpk] at hk
            cases hk
        rw [stripCPF_cons, if_neg (by rw [hkf]; exact Bool.false_ne_true),
          ihP v hsize_v hv, ihR fs' hsize_t hfs]

theorem stripCP_of_noCP (v : JVal) (h : noCP v = true) : stripCP v = v :=
  (stripCP_of_noCP_aux (sizeOf v)).1 v le_rfl h

theorem handleRequest_unauth (h : Host) (r : Request)
    (hne : r.pythonClientToken ≠ h.labelValue) :
    handleRequest h r = (.response 401 none, []) := by
  rw [handleRequest, if_pos hne]

theorem handleRequest_nullobj (h : Host) (r : Request)
    (heq : r.pythonClientToken = h.labelValue)
    (hres : resolveObj h r.objtype r.objid = .null) :
    handleRequest h r = (.uncaught (typeErrMsg r.methodName), [execLog r]) := by
  rw [handleRequest, if_neg (not_not_intro heq), hres]

theorem handleRequest_invoke (h : Host) (r : Request) (n : Nat)
    (heq : r.pythonClientToken = h.labelValue)
    (hres : resolveObj h r.objtype r.objid = .obj n) :
    handleRequest h r =
      (match invokeMember n (h.member n r.methodName) r.args with
       | Except.error e => (Outcome.response 500 (some e), [execLog r] ++ [e])
       | Except.ok ret =>
         if ret.isNull then (Outcome.response 400 none, [execLog r] ++ [returnLog ret])
         else (Outcome.response 201 (successBody ret), [execLog r] ++ [returnLog ret])) := by
  rw [handleRequest, if_neg (not_not_intro heq), hres]

theorem handleRequest_error (h : Host) (r : Request) (n : Nat) (e : String)
    (heq : r.pythonClientToken = h.labelValue)
    (hres : resolveObj h r.objtype r.objid = .obj n)
    (hinv : invokeMember n (h.member n r.methodName) r.args = .error e) :
    handleRequest h r = (.response 500 (some e), [execLog r, e]) := by
  rw [handleRequest_invoke h r n heq hres, hinv]
  rfl

theorem handleRequest_ok_null (h : Host) (r : Request) (n : Nat) (ret : JVal)
    (heq : r.pythonClientToken = h.labelValue)
    (hres : resolveObj h r.objtype r.objid = .obj n)
    (hinv : invokeMember n (h.member n r.methodName) r.args = .ok ret)
    (hnull : ret.isNull = true) :
    handleRequest h r = (.response 400 none, [execLog r, returnLog ret]) := by
  rw [handleRequest_invoke h r n heq hres, hinv]
  simp only [hnull, if_true]
  rfl

theorem handleRequest_ok_notnull (h : Host) (r : Request) (n : Nat) (ret : JVal)
    (heq : r.pythonClientToken = h.labelValue)
    (hres : resolveObj h r.objtype r.objid = .obj n)
    (hinv : invokeMember n (h.member n r.methodName) r.args = .ok ret)
    (hnull : ret.isNull = false) :
    handleRequest h r = (.response 201 (successBody ret), [execLog r, returnLog ret]) := by
  rw [handleRequest_invoke h r n heq hres, hinv]
  simp only [hnull, Bool.false_eq_true, if_false]
  rfl

theorem successBody_undef : successBody JVal.undef = none := by
  rw [successBody, stringifyCP, serProp, if_neg (by decide : ¬cpFilt "" = true), serVal_undef]
  rfl

/-- A concrete member table for concrete test hosts. -/
def demoMember : Nat → String → Member := fun _ name =>
  if name = "getTitle" then .fn (fun _ _ => .ok (.str "Groceries"))
  else if name = "boom" then .fn (fun _ _ => .error "TypeError: x is not a function")
  else if name = "title" then .val (.str "A")
  else if name = "noteObj" then
    .val (.obj [("title", .str "A"), ("children", .arr [.str "c1"]), ("parents", .null)])
  else if name = "plainObj" then .val (.obj [("title", .str "A")])
  else if name = "nothing" then .fn (fun _ _ => .ok .null)
  else if name = "echoArgs" then .fn (fun recv args => .ok (.arr (.num (recv : Int) :: args)))
  else .val (JVal.undef)

/-- A concrete host whose stored token is "tok". -/
def demoHost : Host :=
  { labelValue := some "tok", getNote := fun _ => .obj 1, getBranch := fun _ => .obj 2,
    getAttribute := fun _ => .obj 3, sql := .obj 4, root := 0, member := demoMember }

/-- The demo host with a note resolver that returns null (unknown id). -/
def nullNoteHost : Host := { demoHost with getNote := fun _ => .null }

/-- The demo host with no stored token label value. -/
def noLabelHost : Host := { demoHost with labelValue := none }

/-- A well-formed authenticated note request invoking the given member. -/
def demoReq (m : String) : Request :=
  { pythonClientToken := some "tok", objtype := some "note", objid := some "N1",
    methodName := m, args := [] }

/-- The demo request with a wrong token. -/
def badReq : Request := { demoReq "getTitle" with pythonClientToken := some "bad" }

/-- An sql request with positional arguments. -/
def argsReq : Request :=
  { pythonClientToken := some "tok", objtype := some "sql", objid := none,
    methodName := "echoArgs", args := [.str "a", .num 5] }

/-- A request that carries no token at all. -/
def notokReq : Request :=
  { pythonClientToken := none, objtype := none, objid := none, methodName := "m", args := [] }

/-- C1, counterexample: with the correct token and a note id the resolver
maps to null, the member read stands before the try block and the
TypeError it raises escapes the handler uncaught instead of becoming a
response. -/
theorem c1_counterexample :
    handleRequest nullNoteHost (demoReq "getTitle") =
      (.uncaught (typeErrMsg "getTitle"), [execLog (demoReq "getTitle")]) := rfl

/-- C1 (amended): an exception escapes the handler exactly when the
request is authenticated and the resolver returns a null handle (the
member read before the try block throws); every failure raised inside
the guarded call is caught, so on a non-null handle no exception
escapes. -/
theorem c1_uncaught_iff_null_handle (h : Host) (r : Request) :
    (∃ e, (handleRequest h r).1 = Outcome.uncaught e) ↔
      (r.pythonClientToken = h.labelValue ∧ resolveObj h r.objtype r.objid = HRef.null) := by
  constructor
  · intro he
    obtain ⟨e, he⟩ := he
    by_cases heq : r.pythonClientToken = h.labelValue
    · cases hres : resolveObj h r.objtype r.objid with
      | null => exact ⟨heq, rfl⟩
      | obj n =>
        cases hinv : invokeMember n (h.member n r.methodName) r.args with
        | error err =>
          rw [handleRequest_error h r n err heq hres hinv] at he
          simp at he
        | ok ret =>
          cases hnull : ret.isNull with
          | false =>
            rw [handleRequest_ok_notnull h r n ret heq hres hinv hnull] at he
            simp at he
          | true =>
            rw [handleRequest_ok_null h r n ret heq hres hinv hnull] at he
            simp at he
    · rw [handleRequest_unauth h r heq] at he
      simp at he
  · intro hc
    obtain ⟨heq, hres⟩ := hc
    exact ⟨typeErrMsg r.methodName, by rw [handleRequest_nullobj h r heq hres]⟩

theorem c1_witness :
    ∃ e, (handleRequest nullNoteHost (demoReq "getTitle")).1 = Outcome.uncaught e :=
  (c1_uncaught_iff_null_handle nullNoteHost (demoReq "getTitle")).mpr ⟨rfl, rfl⟩

/-- C2, counterexample: a missing member gives an undefined result, and
the handler answers 201 with an empty body, not 400 — the null check is
strict so undefined is not caught by it. -/
theorem c2_counterexample :
    (handleRequest demoHost (demoReq "missing")).1 = Outcome.response 201 none ∧
    Outcome.response 201 none ≠ Outcome.response 400 none := by
  constructor
  · have h1 : handleRequest demoHost (demoReq "missing") =
        (.response 201 (successBody JVal.undef),
         [execLog (demoReq "missing"), returnLog JVal.undef]) := rfl
    rw [h1, successBody_undef]
  · decide

/-- C2 (amended): for an authenticated request whose invocation result is
exactly null the response is 400 with empty body; when the result is
undefined (member missing) the strict null check fails and the response
is 201 with an empty body (stringify of undefined is undefined). -/
theorem c2_null_vs_undefined (h : Host) (r : Request) (n : Nat) (ret : JVal)
    (heq : r.pythonClientToken = h.labelValue)
    (hres : resolveObj h r.objtype r.objid = .obj n)
    (hinv : invokeMember n (h.member n r.methodName) r.args = .ok ret) :
    (ret = JVal.null →
      handleRequest h r = (.response 400 none, [execLog r, returnLog JVal.null])) ∧
    (ret = JVal.undef →
      handleRequest h r = (.response 201 none, [execLog r, returnLog JVal.undef])) := by
  constructor
  · intro hn
    subst hn
    exact handleRequest_ok_null h r n _ heq hres hinv rfl
  · intro hn
    subst hn
    rw [handleRequest_ok_notnull h r n _ heq hres hinv rfl, successBody_undef]

theorem c2_witness :
    handleRequest demoHost (demoReq "nothing") =
      (.response 400 none, [execLog (demoReq "nothing"), returnLog JVal.null]) ∧
    handleRequest demoHost (demoReq "missing") =
      (.response 201 none, [execLog (demoReq "missing"), returnLog JVal.undef]) :=
  ⟨(c2_null_vs_undefined demoHost (demoReq "nothing") 1 JVal.null rfl rfl rfl).1 rfl,
   (c2_null_vs_undefined demoHost (demoReq "missing") 1 JVal.undef rfl rfl rfl).2 rfl⟩

/-- C3: on a token mismatch the response is 401 with no log entries, and
the outcome does not depend on any other part of the host — observably no
resolution and no invocation happen. -/
theorem c3_unauthorized (h : Host) (r : Request)
    (hne : r.pythonClientToken ≠ h.labelValue) :
    handleRequest h r = (.response 401 none, []) ∧
    ∀ h' : Host, h'.labelValue = h.labelValue → handleRequest h' r = handleRequest h r := by
  refine ⟨handleRequest_unauth h r hne, fun h' hl => ?_⟩
  rw [handleRequest_unauth h r hne, handleRequest_unauth h' r (by rw [hl]; exact hne)]

theorem c3_witness :
    handleRequest demoHost badReq = (.response 401 none, []) ∧
    handleRequest nullNoteHost badReq = handleRequest demoHost badReq :=
  ⟨(c3_unauthorized demoHost badReq (by decide)).1,
   (c3_unauthorized demoHost badReq (by decide)).2 nullNoteHost rfl⟩

/-- C4: the resolver maps note/branch/attribute to the host lookups on
the given id, sql to the sql facade with the id ignored, and every other
kind (including an absent one) to the root api handle. -/
theorem c4_resolver (h : Host) (oid : Option String) :
    resolveObj h (some "note") oid = h.getNote oid ∧
    resolveObj h (some "branch") oid = h.getBranch oid ∧
    resolveObj h (some "attribute") oid = h.getAttribute oid ∧
    resolveObj h (some "sql") oid = h.sql ∧
    ∀ k : Option String, k ≠ some "note" → k ≠ some "branch" → k ≠ some "attribute" →
      k ≠ some "sql" → resolveObj h k oid = .obj h.root := by
  refine ⟨?_, ?_, ?_, ?_, ?_⟩
  · rw [resolveObj, if_pos rfl]
  · rw [resolveObj, if_neg (by decide), if_pos rfl]
  · rw [resolveObj, if_neg (by decide), if_neg (by decide), if_pos rfl]
  · rw [resolveObj, if_neg (by decide), if_neg (by decide), if_neg (by decide), if_pos rfl]
  · intro k h1 h2 h3 h4
    rw [resolveObj, if_neg h1, if_neg h2, if_neg h3, if_neg h4]

theorem c4_witness :
    resolveObj demoHost (some "note") (some "N1") = demoHost.getNote (some "N1") ∧
    resolveObj demoHost (some "sql") (some "N1") = demoHost.sql ∧
    resolveObj demoHost none (some "N1") = .obj demoHost.root ∧
    resolveObj demoHost (some "bogus") (some "N1") = .obj demoHost.root :=
  ⟨(c4_resolver demoHost (some "N1")).1,
   (c4_resolver demoHost (some "N1")).2.2.2.1,
   (c4_resolver demoHost (some "N1")).2.2.2.2 none
     (by decide) (by decide) (by decide) (by decide),
   (c4_resolver demoHost (some "N1")).2.2.2.2 (some "bogus")
     (by decide) (by decide) (by decide) (by decide)⟩

/-- C5: on an authenticated resolved request, a callable member is
applied to the resolved handle as receiver with the args exactly as
given, and the call's answer alone determines the outcome; a member that
exists but is not callable yields its value as the invocation result
without any call. -/
theorem c5_invoker (h : Host) (r : Request) (n : Nat)
    (heq : r.pythonClientToken = h.labelValue)
    (hres : resolveObj h r.objtype r.objid = .obj n) :
    (∀ f, h.member n r.methodName = Member.fn f →
      invokeMember n (h.member n r.methodName) r.args = f n r.args ∧
      (∀ e, f n r.args = .error e →
        handleRequest h r = (.response 500 (some e), [execLog r, e])) ∧
      (∀ ret, f n r.args = .ok ret → ret.isNull = false →
        handleRequest h r = (.response 201 (successBody ret), [execLog r, returnLog ret]))) ∧
    (∀ v, h.member n r.methodName = Member.val v →
      invokeMember n (h.member n r.methodName) r.args = Except.ok v) := by
  constructor
  · intro f hf
    refine ⟨by rw [hf]; rfl, fun e he => ?_, fun ret hret hnull => ?_⟩
    · exact handleRequest_error h r n e heq hres (by rw [hf]; exact he)
    · exact handleRequest_ok_notnull h r n ret heq hres (by rw [hf]; exact hret) hnull
  · intro v hv
    rw [hv]
    rfl

theorem c5_witness :
    invokeMember 4 (demoHost.member 4 "echoArgs") argsReq.args =
      Except.ok (.arr [.num 4, .str "a", .num 5]) ∧
    handleRequest demoHost argsReq =
      (.response 201 (successBody (.arr [.num 4, .str "a", .num 5])),
       [execLog argsReq, returnLog (.arr [.num 4, .str "a", .num 5])]) ∧
    invokeMember 1 (demoHost.member 1 "title") (demoReq "title").args =
      Except.ok (.str "A") := by
  have h := c5_invoker demoHost argsReq 4 rfl rfl
  refine ⟨?_, ?_, ?_⟩
  · exact ((h.1 _ rfl).1).trans rfl
  · exact (h.1 _ rfl).2.2 _ rfl rfl
  · exact (c5_invoker demoHost (demoReq "title") 1 rfl rfl).2 _ rfl

/-- C6: when the guarded call raises, the handler answers 500 with the
failure's string form as body, logs the failure before responding, and
produces no return-value serialization for that request. -/
theorem c6_error_response (h : Host) (r : Request) (n : Nat)
    (f : Nat → List JVal → Except String JVal) (e : String)
    (heq : r.pythonClientToken = h.labelValue)
    (hres : resolveObj h r.objtype r.objid = .obj n)
    (hm : h.member n r.methodName = Member.fn f)
    (herr : f n r.args = .error e) :
    handleRequest h r = (.response 500 (some e), [execLog r, e]) :=
  handleRequest_error h r n e heq hres (by rw [hm]; exact herr)

theorem c6_witness :
    handleRequest demoHost (demoReq "boom") =
      (.response 500 (some "TypeError: x is not a function"),
       [execLog (demoReq "boom"), "TypeError: x is not a function"]) :=
  c6_error_response demoHost (demoReq "boom") 1 _ "TypeError: x is not a function"
    rfl rfl rfl rfl

/-- C7: for a non-null invocation result, the 201 body is plain JSON of
the result with every children/parents member removed at every depth and
everything else kept (stringify with the replacer equals plain stringify
after stripCP). -/
theorem c7_filtering (h : Host) (r : Request) (n : Nat) (ret : JVal)
    (heq : r.pythonClientToken = h.labelValue)
    (hres : resolveObj h r.objtype r.objid = .obj n)
    (hinv : invokeMember n (h.member n r.methodName) r.args = .ok ret)
    (hnull : ret.isNull = false) :
    handleRequest h r =
      (.response 201 (stringifyPlain (stripCP ret)), [execLog r, returnLog ret]) := by
  rw [handleRequest_ok_notnull h r n ret heq hres hinv hnull]
  rw [show successBody ret = stringifyPlain (stripCP ret) from stringifyCP_strip ret]

theorem c7_witness :
    handleRequest demoHost (demoReq "noteObj") =
      (.response 201
        (stringifyPlain
          (stripCP (.obj [("title", .str "A"), ("children", .arr [.str "c1"]),
            ("parents", .null)]))),
       [execLog (demoReq "noteObj"),
        returnLog (.obj [("title", .str "A"), ("children", .arr [.str "c1"]),
          ("parents", .null)])]) :=
  c7_filtering demoHost (demoReq "noteObj") 1 _ rfl rfl rfl rfl

/-- C8: for a JSON-safe non-null result with no children/parents keys
anywhere, the response is 201 and decoding its body as JSON gives back
exactly the invocation result. -/
theorem c8_roundtrip (h : Host) (r : Request) (n : Nat) (ret : JVal)
    (heq : r.pythonClientToken = h.labelValue)
    (hres : resolveObj h r.objtype r.objid = .obj n)
    (hinv : invokeMember n (h.member n r.methodName) r.args = .ok ret)
    (hsafe : jsonSafe ret = true) (hcp : noCP ret = true) (hnull : ret.isNull = false) :
    ∃ b : String, handleRequest h r = (.response 201 (some b), [execLog r, returnLog ret]) ∧
      jsonDecode b = some ret := by
  obtain ⟨cs, hcs⟩ := serVal_isSome noFilt ret hsafe
  refine ⟨String.mk cs, ?_, jsonDecode_ser ret hsafe cs hcs⟩
  rw [handleRequest_ok_notnull h r n ret heq hres hinv hnull,
    show successBody ret = stringifyPlain (stripCP ret) from stringifyCP_strip ret,
    stripCP_of_noCP ret hcp, stringifyPlain, hcs]
  rfl

theorem c8_witness :
    ∃ b : String, handleRequest demoHost (demoReq "plainObj") =
      (.response 201 (some b),
       [execLog (demoReq "plainObj"), returnLog (.obj [("title", .str "A")])]) ∧
      jsonDecode b = some (.obj [("title", .str "A")]) :=
  c8_roundtrip demoHost (demoReq "plainObj") 1 _ rfl rfl rfl
    (by simp [jsonSafe, jsonSafeF]) (by simp [noCP, noCPF, cpFilt]) rfl

/-- C9: authentication passes exactly when the supplied token strictly
equals the stored label value (as JS values, so two absent values are
equal and pass); the handler short-circuits to the bare 401 outcome
precisely on a mismatch. -/
theorem c9_auth_iff (h : Host) (r : Request) :
    handleRequest h r ≠ (.response 401 none, []) ↔
      r.pythonClientToken = h.labelValue := by
  constructor
  · intro hne
    by_contra hq
    exact hne (handleRequest_unauth h r hq)
  · intro heq
    cases hres : resolveObj h r.objtype r.objid with
    | null =>
      rw [handleRequest_nullobj h r heq hres]
      simp
    | obj n =>
      cases hinv : invokeMember n (h.member n r.methodName) r.args with
      | error e =>
        rw [handleRequest_error h r n e heq hres hinv]
        simp
      | ok ret =>
        cases hnull : ret.isNull with
        | false =>
          rw [handleRequest_ok_notnull h r n ret heq hres hinv hnull]
          simp
        | true =>
          rw [handleRequest_ok_null h r n ret heq hres hinv hnull]
          simp

theorem c9_witness : handleRequest noLabelHost notokReq ≠ (.response 401 none, []) :=
  (c9_auth_iff noLabelHost notokReq).mpr rfl

/-- C10: the Return value log line and the 201 body are built from the
same replacer-filtered stringify, so any two results that agree after
removing children/parents members everywhere produce identical log lines
and identical bodies — filtered fields never leak into the log. -/
theorem c10_log_body_consistency (v w : JVal) (hs : stripCP v = stripCP w) :
    returnLog v = returnLog w ∧ successBody v = successBody w := by
  have hcp : stringifyCP v = stringifyCP w := by
    rw [stringifyCP_strip, stringifyCP_strip, hs]
  exact ⟨by rw [returnLog, returnLog, hcp], by rw [successBody, successBody, hcp]⟩

theorem c10_witness :
    returnLog (.obj [("title", .str "A"), ("children", .arr [.str "c1"])]) =
      returnLog (.obj [("title", .str "A"), ("children", .null)]) ∧
    successBody (.obj [("title", .str "A"), ("children", .arr [.str "c1"])]) =
      successBody (.obj [("title", .str "A"), ("children", .null)]) := by
  have e1 : stripCP (.obj [("title", .str "A"), ("children", .arr [.str "c1"])]) =
      .obj [("title", .str "A")] := by
    rw [stripCP_obj, stripCPF_cons, if_neg (by decide : ¬cpFilt "title" = true),
      stripCPF_cons, if_pos (by decide : cpFilt "children" = true), stripCPF_nil,
      stripCP_str]
  have e2 : stripCP (.obj [("title", .str "A"), ("children", .null)]) =
      .obj [("title", .str "A")] := by
    rw [stripCP_obj, stripCPF_cons, if_neg (by decide : ¬cpFilt "title" = true),
      stripCPF_cons, if_pos (by decide : cpFilt "children" = true), stripCPF_nil,
      stripCP_str]
  exact c10_log_body_consistency _ _ (e1.trans e2.symm)
